import Mathlib

/-
Verification of `Backbone_Validation/main.py` (nanopore-translocation backbone
validation script).

The script evaluates two pre-trained networks (a pulse counter `model_1` and a
feature predictor `model_2`) over a validation dataset organised as a 4-D grid
(concentration × duration × diameter × window-index).  The development below is
a shallow embedding of the numerical core:

* `unravel_index` / `ravel_index`: the row-major flat-index arithmetic used by
  `np.unravel_index(i, VADL.shape)` (main.py line 366);
* `processWindow`: the body of the per-window loop of `compute_error_stats`
  (main.py lines 364-421);
* `local_error_stats` / `compute_error_stats`: the whole statistics pass,
  including the world-size sharding guard (line 365) and the distributed
  reduction (lines 427-436);
* `run_external`, `run_outputs`, `runStep`, `run_model_stats`: the error
  accumulation loop of `run_model` (main.py lines 646-704).

Real-valued tensor entries are modelled by exact rationals; a tensor cell is a
`Cell`, either a rational value or `Cell.nan` (the float NaN written for
improper measures, which propagates through sums).  Neural-network evaluations
are opaque parameters (`model_1 : List ℚ → ℚ`, `model_2 : List ℚ → ℚ → ℚ × ℚ`)
since the networks are externally supplied checkpoints.
-/

namespace BackboneValidation

/-- `VADL.shape`: the dataset grid has one axis per concentration, duration,
diameter and window index (main.py lines 248-264). -/
structure Shape where
  nc : ℕ
  nd : ℕ
  ndi : ℕ
  nw : ℕ

/-- `VADL.total_number_of_windows` — the product of the four grid extents. -/
def Shape.total (s : Shape) : ℕ := s.nc * s.nd * s.ndi * s.nw

/-- A 4-D grid coordinate `(Cnp, Duration, Dnp, window)`. -/
abbrev Idx4 := ℕ × ℕ × ℕ × ℕ

/-- Membership of a coordinate in the grid. -/
def Shape.inRange (s : Shape) (x : Idx4) : Prop :=
  x.1 < s.nc ∧ x.2.1 < s.nd ∧ x.2.2.1 < s.ndi ∧ x.2.2.2 < s.nw

instance (s : Shape) (x : Idx4) : Decidable (s.inRange x) := by
  unfold Shape.inRange; infer_instance

/-- `np.unravel_index(i, shape)` in row-major (C) order, as used at
main.py line 366. -/
def unravel_index (s : Shape) (i : ℕ) : Idx4 :=
  (i / (s.nd * s.ndi * s.nw), i / (s.ndi * s.nw) % s.nd, i / s.nw % s.ndi, i % s.nw)

/-- The inverse row-major flattening (`np.ravel_multi_index`); used only to
reason about `unravel_index`. -/
def ravel_index (s : Shape) (x : Idx4) : ℕ :=
  ((x.1 * s.nd + x.2.1) * s.ndi + x.2.2.1) * s.nw + x.2.2.2

theorem ravel_unravel (s : Shape) (i : ℕ) : ravel_index s (unravel_index s i) = i := by
  unfold ravel_index unravel_index
  have hA : i / (s.nd * s.ndi * s.nw) = i / (s.ndi * s.nw) / s.nd := by
    rw [Nat.div_div_eq_div_mul]
    congr 1
    ring
  have hB : i / (s.ndi * s.nw) = i / s.nw / s.ndi := by
    rw [Nat.div_div_eq_div_mul]
    congr 1
    ring
  simp only [hA]
  rw [Nat.div_add_mod' (i / (s.ndi * s.nw)) s.nd, hB,
    Nat.div_add_mod' (i / s.nw) s.ndi, Nat.div_add_mod' i s.nw]

theorem unravel_index_injective (s : Shape) : Function.Injective (unravel_index s) := by
  intro a b h
  have h2 := congrArg (ravel_index s) h
  rwa [ravel_unravel, ravel_unravel] at h2

theorem unravel_ravel (s : Shape) (x : Idx4) (hx : s.inRange x) :
    unravel_index s (ravel_index s x) = x := by
  obtain ⟨a, b, c, d⟩ := x
  obtain ⟨ha, hb, hc, hd⟩ := hx
  simp only [] at ha hb hc hd
  have hnw : 0 < s.nw := Nat.pos_of_ne_zero (by intro h; omega)
  have hndi : 0 < s.ndi := Nat.pos_of_ne_zero (by intro h; omega)
  have hnd : 0 < s.nd := Nat.pos_of_ne_zero (by intro h; omega)
  unfold ravel_index unravel_index
  simp only []
  have hdivnw : ((a * s.nd + b) * s.ndi + c) * s.nw + d = s.nw * ((a * s.nd + b) * s.ndi + c) + d := by
    ring
  have h4 : (((a * s.nd + b) * s.ndi + c) * s.nw + d) % s.nw = d := by
    rw [hdivnw, Nat.mul_add_mod, Nat.mod_eq_of_lt hd]
  have h34 : (((a * s.nd + b) * s.ndi + c) * s.nw + d) / s.nw = (a * s.nd + b) * s.ndi + c := by
    rw [hdivnw, Nat.mul_add_div hnw, Nat.div_eq_of_lt hd, Nat.add_zero]
  have h3 : (((a * s.nd + b) * s.ndi + c) * s.nw + d) / s.nw % s.ndi = c := by
    rw [h34]
    have : (a * s.nd + b) * s.ndi + c = s.ndi * (a * s.nd + b) + c := by ring
    rw [this, Nat.mul_add_mod, Nat.mod_eq_of_lt hc]
  have h24 : (((a * s.nd + b) * s.ndi + c) * s.nw + d) / (s.ndi * s.nw) = a * s.nd + b := by
    have hmul : s.ndi * s.nw = s.nw * s.ndi := by ring
    rw [hmul, ← Nat.div_div_eq_div_mul, h34]
    have : (a * s.nd + b) * s.ndi + c = s.ndi * (a * s.nd + b) + c := by ring
    rw [this, Nat.mul_add_div hndi, Nat.div_eq_of_lt hc, Nat.add_zero]
  have h2 : (((a * s.nd + b) * s.ndi + c) * s.nw + d) / (s.ndi * s.nw) % s.nd = b := by
    rw [h24]
    have : a * s.nd + b = s.nd * a + b := by ring
    rw [this, Nat.mul_add_mod, Nat.mod_eq_of_lt hb]
  have h1 : (((a * s.nd + b) * s.ndi + c) * s.nw + d) / (s.nd * s.ndi * s.nw) = a := by
    have hmul : s.nd * s.ndi * s.nw = s.ndi * s.nw * s.nd := by ring
    rw [hmul, ← Nat.div_div_eq_div_mul, h24]
    have : a * s.nd + b = s.nd * a + b := by ring
    rw [this, Nat.mul_add_div hnd, Nat.div_eq_of_lt hb, Nat.add_zero]
  simp only [Prod.mk.injEq]
  exact ⟨h1, h2, h3, h4⟩

theorem ravel_lt_total (s : Shape) (x : Idx4) (hx : s.inRange x) :
    ravel_index s x < s.total := by
  obtain ⟨a, b, c, d⟩ := x
  obtain ⟨ha, hb, hc, hd⟩ := hx
  simp only [] at ha hb hc hd
  unfold ravel_index Shape.total
  have step : ∀ p q u v : ℕ, p < q → u < v → p * v + u < q * v := by
    intro p q u v hpq huv
    calc p * v + u < p * v + v := by omega
      _ = (p + 1) * v := by ring
      _ ≤ q * v := Nat.mul_le_mul (Nat.succ_le_of_lt hpq) (le_refl v)
  have k1 : a * s.nd + b < s.nc * s.nd := step a s.nc b s.nd ha hb
  have k2 : (a * s.nd + b) * s.ndi + c < s.nc * s.nd * s.ndi :=
    step (a * s.nd + b) (s.nc * s.nd) c s.ndi k1 hc
  exact step ((a * s.nd + b) * s.ndi + c) (s.nc * s.nd * s.ndi) d s.nw k2 hd

theorem unravel_inRange (s : Shape) (i : ℕ) (hi : i < s.total) :
    s.inRange (unravel_index s i) := by
  unfold Shape.total at hi
  have hnw : 0 < s.nw := Nat.pos_of_ne_zero (by intro h; rw [h] at hi; omega)
  have hndi : 0 < s.ndi := Nat.pos_of_ne_zero (by intro h; rw [h] at hi; simp at hi)
  have hnd : 0 < s.nd := Nat.pos_of_ne_zero (by intro h; rw [h] at hi; simp at hi)
  unfold unravel_index Shape.inRange
  refine ⟨?_, ?_, ?_, ?_⟩
  · have hpos : 0 < s.nd * s.ndi * s.nw := by positivity
    rw [Nat.div_lt_iff_lt_mul hpos]
    calc i < s.nc * s.nd * s.ndi * s.nw := hi
      _ = s.nc * (s.nd * s.ndi * s.nw) := by ring
  · exact Nat.mod_lt _ hnd
  · exact Nat.mod_lt _ hndi
  · exact Nat.mod_lt _ hnw

/-- One tensor cell: a finite value or the float NaN that `compute_error_stats`
writes for improper measures (main.py lines 414-416). -/
inductive Cell where
  | nan : Cell
  | val : ℚ → Cell
deriving DecidableEq

/-- Float addition restricted to the values occurring here: NaN propagates
through sums, finite values add exactly. -/
def Cell.add : Cell → Cell → Cell
  | Cell.nan, _ => Cell.nan
  | Cell.val _, Cell.nan => Cell.nan
  | Cell.val a, Cell.val b => Cell.val (a + b)

/-- Point update of a 4-D tensor, e.g. `count_errors[Cnp, Duration, Dnp, window] = v`. -/
def upd (f : Idx4 → Cell) (a : Idx4) (v : Cell) : Idx4 → Cell :=
  fun x => if x = a then v else f x

/-- `torch.mean` of a 1-D signal (exact rational mean; mean of the empty signal
degenerates to 0, matching ℚ's total division). -/
def signalMean (l : List ℚ) : ℚ := l.sum / (l.length : ℚ)

/-- `noisy_signals = noisy_signals - mean` (main.py lines 377-378 and 648-649):
subtract the per-window mean from every sample. -/
def center (l : List ℚ) : List ℚ := l.map (fun x => x - signalMean l)

/-- `torch.round`: round to nearest integer, ties to even (IEEE-754 default
used by torch). -/
def roundHalfEven (q : ℚ) : ℤ :=
  if q - ⌊q⌋ < 1 / 2 then ⌊q⌋
  else if 1 / 2 < q - ⌊q⌋ then ⌊q⌋ + 1
  else if ⌊q⌋ % 2 = 0 then ⌊q⌋ else ⌊q⌋ + 1

/-- The validation context of `compute_error_stats`: the dataset grid, the data
returned by `VADL.get_signal_window` for each grid cell (times, noisy and clean
signals, and the ground-truth labels `(count, duration, amplitude)`), and the
two externally supplied networks.  `model_1` consumes the (centered) signal and
emits a pulse count; `model_2` consumes the signal together with the external
conditioning input. -/
structure Env where
  shape : Shape
  times : Idx4 → List ℚ
  noisy_signals : Idx4 → List ℚ
  clean_signals : Idx4 → List ℚ
  labels : Idx4 → ℚ × ℚ × ℚ
  model_1 : List ℚ → ℚ
  model_2 : List ℚ → ℚ → ℚ × ℚ

/-- The mutable state of `compute_error_stats`: the three error tensors
(initialised with `torch.zeros(VADL.shape)`) and the `improper_measures`
counter. -/
structure Stats where
  count_errors : Idx4 → Cell
  duration_errors : Idx4 → Cell
  amplitude_errors : Idx4 → Cell
  improper_measures : ℕ

/-- The state at the top of `compute_error_stats` (main.py lines 359-362). -/
def initStats : Stats :=
  ⟨fun _ => Cell.val 0, fun _ => Cell.val 0, fun _ => Cell.val 0, 0⟩

/-- The body of the window loop of `compute_error_stats` (main.py lines
366-421), processing the window at grid cell `idx`.  The signal is
mean-centered; `model_1` yields `num_of_pulses`, whose rounding is the
`external` input of `model_2`.  For a window with `labels[0] > 0` the three
percentage errors are recorded (the predictor outputs are scaled by `10**(-3)`
and `10**(-10)`); for a zero-pulse window the branch at lines 398-421 either
marks an improper measure (NaN in all three tensors) when `external > 0`, or
records zero errors. -/
def processWindow (env : Env) (st : Stats) (idx : Idx4) : Stats :=
  if 0 < (env.labels idx).1 then
    { count_errors := upd st.count_errors idx (Cell.val
        (|((env.labels idx).1 -
            ((roundHalfEven (env.model_1 (center (env.noisy_signals idx))) : ℤ) : ℚ)) /
          (env.labels idx).1| * 100))
      duration_errors := upd st.duration_errors idx (Cell.val
        (|((env.labels idx).2.1 -
            (env.model_2 (center (env.noisy_signals idx))
              ((roundHalfEven (env.model_1 (center (env.noisy_signals idx))) : ℤ) : ℚ)).1 *
              (1 / 10 ^ 3)) /
          (env.labels idx).2.1| * 100))
      amplitude_errors := upd st.amplitude_errors idx (Cell.val
        (|((env.labels idx).2.2 -
            (env.model_2 (center (env.noisy_signals idx))
              ((roundHalfEven (env.model_1 (center (env.noisy_signals idx))) : ℤ) : ℚ)).2 *
              (1 / 10 ^ 10)) /
          (env.labels idx).2.2| * 100))
      improper_measures := st.improper_measures }
  else if 0 < ((roundHalfEven (env.model_1 (center (env.noisy_signals idx))) : ℤ) : ℚ) then
    { count_errors := upd st.count_errors idx Cell.nan
      duration_errors := upd st.duration_errors idx Cell.nan
      amplitude_errors := upd st.amplitude_errors idx Cell.nan
      improper_measures := st.improper_measures + 1 }
  else
    { count_errors := upd st.count_errors idx (Cell.val 0)
      duration_errors := upd st.duration_errors idx (Cell.val 0)
      amplitude_errors := upd st.amplitude_errors idx (Cell.val 0)
      improper_measures := st.improper_measures }

/-- The value `processWindow` stores in `count_errors` at its cell. -/
def writtenCount (env : Env) (idx : Idx4) : Cell :=
  if 0 < (env.labels idx).1 then
    Cell.val
      (|((env.labels idx).1 -
          ((roundHalfEven (env.model_1 (center (env.noisy_signals idx))) : ℤ) : ℚ)) /
        (env.labels idx).1| * 100)
  else if 0 < ((roundHalfEven (env.model_1 (center (env.noisy_signals idx))) : ℤ) : ℚ) then
    Cell.nan
  else Cell.val 0

/-- The value `processWindow` stores in `duration_errors` at its cell. -/
def writtenDuration (env : Env) (idx : Idx4) : Cell :=
  if 0 < (env.labels idx).1 then
    Cell.val
      (|((env.labels idx).2.1 -
          (env.model_2 (center (env.noisy_signals idx))
            ((roundHalfEven (env.model_1 (center (env.noisy_signals idx))) : ℤ) : ℚ)).1 *
            (1 / 10 ^ 3)) /
        (env.labels idx).2.1| * 100)
  else if 0 < ((roundHalfEven (env.model_1 (center (env.noisy_signals idx))) : ℤ) : ℚ) then
    Cell.nan
  else Cell.val 0

/-- The value `processWindow` stores in `amplitude_errors` at its cell. -/
def writtenAmplitude (env : Env) (idx : Idx4) : Cell :=
  if 0 < (env.labels idx).1 then
    Cell.val
      (|((env.labels idx).2.2 -
          (env.model_2 (center (env.noisy_signals idx))
            ((roundHalfEven (env.model_1 (center (env.noisy_signals idx))) : ℤ) : ℚ)).2 *
            (1 / 10 ^ 10)) /
        (env.labels idx).2.2| * 100)
  else if 0 < ((roundHalfEven (env.model_1 (center (env.noisy_signals idx))) : ℤ) : ℚ) then
    Cell.nan
  else Cell.val 0

/-- How much `processWindow` adds to `improper_measures` at its cell. -/
def improperDelta (env : Env) (idx : Idx4) : ℕ :=
  if 0 < (env.labels idx).1 then 0
  else if 0 < ((roundHalfEven (env.model_1 (center (env.noisy_signals idx))) : ℤ) : ℚ) then 1
  else 0

theorem processWindow_count (env : Env) (st : Stats) (idx : Idx4) :
    (processWindow env st idx).count_errors = upd st.count_errors idx (writtenCount env idx) := by
  unfold processWindow writtenCount
  split_ifs <;> rfl

theorem processWindow_duration (env : Env) (st : Stats) (idx : Idx4) :
    (processWindow env st idx).duration_errors =
      upd st.duration_errors idx (writtenDuration env idx) := by
  unfold processWindow writtenDuration
  split_ifs <;> rfl

theorem processWindow_amplitude (env : Env) (st : Stats) (idx : Idx4) :
    (processWindow env st idx).amplitude_errors =
      upd st.amplitude_errors idx (writtenAmplitude env idx) := by
  unfold processWindow writtenAmplitude
  split_ifs <;> rfl

theorem processWindow_improper (env : Env) (st : Stats) (idx : Idx4) :
    (processWindow env st idx).improper_measures =
      st.improper_measures + improperDelta env idx := by
  unfold processWindow improperDelta
  split_ifs <;> rfl

/-- One iteration of the loop at main.py lines 364-365: window `i` is handled
only when `i % args.world_size == args.local_rank`. -/
def shardStep (W r : ℕ) (env : Env) (st : Stats) (i : ℕ) : Stats :=
  if i % W = r then processWindow env st (unravel_index env.shape i) else st

/-- The local accumulation of `compute_error_stats` on rank `r` of `W`
processes: the loop `for i in range(VADL.total_number_of_windows)` over the
guarded window body (main.py lines 359-421). -/
def local_error_stats (W r : ℕ) (env : Env) : Stats :=
  (List.range env.shape.total).foldl (shardStep W r env) initStats

/-- The shard of flat window indices handled by rank `r` (the indices of
`range(total_number_of_windows)` passing the guard at main.py line 365). -/
def shard (W r total : ℕ) : List ℕ :=
  (List.range total).filter (fun i => i % W == r)

/-- Modelled from the spec: `Utilities.reduce_tensor_sum_dest` is imported from
the repository root (`sys.path.append('../')`) and its source is not available
under `src/`; the spec describes the distributed step as "an optional
all-reduce sum across processes", so it is modelled as the elementwise sum of
the per-rank tensors, identical on every process. -/
def reduce_tensor_sum_dest (ranks : ℕ → Idx4 → Cell) (W : ℕ) : Idx4 → Cell :=
  fun idx => (List.range W).foldl (fun acc q => Cell.add acc (ranks q idx)) (Cell.val 0)

/-- `compute_error_stats` as rank `r` of `W` processes observes it (main.py
lines 355-436): the local accumulation followed, in the distributed case
(`WORLD_SIZE > 1`, main.py lines 90-92 and 427-430), by the reduction of the
three error tensors; `improper_measures` is returned as is (line 436). -/
def compute_error_stats (W r : ℕ) (env : Env) : Stats :=
  if 1 < W then
    { count_errors := reduce_tensor_sum_dest (fun q => (local_error_stats W q env).count_errors) W
      duration_errors :=
        reduce_tensor_sum_dest (fun q => (local_error_stats W q env).duration_errors) W
      amplitude_errors :=
        reduce_tensor_sum_dest (fun q => (local_error_stats W q env).amplitude_errors) W
      improper_measures := (local_error_stats W r env).improper_measures }
  else local_error_stats W r env

theorem shardStep_preserve (W r : ℕ) (env : Env) (st : Stats) (a : ℕ) (c : Idx4)
    (ha : unravel_index env.shape a ≠ c) :
    (shardStep W r env st a).count_errors c = st.count_errors c ∧
    (shardStep W r env st a).duration_errors c = st.duration_errors c ∧
    (shardStep W r env st a).amplitude_errors c = st.amplitude_errors c := by
  unfold shardStep
  by_cases hp : a % W = r
  · rw [if_pos hp]
    refine ⟨?_, ?_, ?_⟩
    · rw [processWindow_count]
      simp only [upd]
      rw [if_neg (Ne.symm ha)]
    · rw [processWindow_duration]
      simp only [upd]
      rw [if_neg (Ne.symm ha)]
    · rw [processWindow_amplitude]
      simp only [upd]
      rw [if_neg (Ne.symm ha)]
  · rw [if_neg hp]
    exact ⟨rfl, rfl, rfl⟩

theorem foldl_shardStep_preserve (W r : ℕ) (env : Env) (c : Idx4) :
    ∀ (l : List ℕ) (st : Stats), (∀ j ∈ l, unravel_index env.shape j ≠ c) →
      (l.foldl (shardStep W r env) st).count_errors c = st.count_errors c ∧
      (l.foldl (shardStep W r env) st).duration_errors c = st.duration_errors c ∧
      (l.foldl (shardStep W r env) st).amplitude_errors c = st.amplitude_errors c := by
  intro l
  induction l with
  | nil => intro st _; exact ⟨rfl, rfl, rfl⟩
  | cons a t ih =>
    intro st hl
    rw [List.foldl_cons]
    obtain ⟨h1, h2, h3⟩ :=
      ih (shardStep W r env st a) (fun j hj => hl j (List.mem_cons_of_mem a hj))
    obtain ⟨e1, e2, e3⟩ :=
      shardStep_preserve W r env st a c (hl a (List.mem_cons_self a t))
    exact ⟨h1.trans e1, h2.trans e2, h3.trans e3⟩

theorem foldl_shardStep_written (W r : ℕ) (env : Env) (i : ℕ) (hproc : i % W = r) :
    ∀ (l : List ℕ) (st : Stats), i ∈ l →
      (l.foldl (shardStep W r env) st).count_errors (unravel_index env.shape i) =
        writtenCount env (unravel_index env.shape i) ∧
      (l.foldl (shardStep W r env) st).duration_errors (unravel_index env.shape i) =
        writtenDuration env (unravel_index env.shape i) ∧
      (l.foldl (shardStep W r env) st).amplitude_errors (unravel_index env.shape i) =
        writtenAmplitude env (unravel_index env.shape i) := by
  intro l
  induction l with
  | nil => intro st h; exact absurd h (List.not_mem_nil i)
  | cons a t ih =>
    intro st hmem
    rw [List.foldl_cons]
    by_cases hit : i ∈ t
    · exact ih _ hit
    · have hia : i = a := by
        rcases List.mem_cons.mp hmem with h | h
        · exact h
        · exact absurd h hit
      subst hia
      have hne : ∀ j ∈ t, unravel_index env.shape j ≠ unravel_index env.shape i := by
        intro j hj heq
        exact hit (unravel_index_injective env.shape heq ▸ hj)
      obtain ⟨p1, p2, p3⟩ :=
        foldl_shardStep_preserve W r env (unravel_index env.shape i) t
          (shardStep W r env st i) hne
      have w1 : (shardStep W r env st i).count_errors (unravel_index env.shape i) =
          writtenCount env (unravel_index env.shape i) := by
        unfold shardStep
        rw [if_pos hproc, processWindow_count]
        simp [upd]
      have w2 : (shardStep W r env st i).duration_errors (unravel_index env.shape i) =
          writtenDuration env (unravel_index env.shape i) := by
        unfold shardStep
        rw [if_pos hproc, processWindow_duration]
        simp [upd]
      have w3 : (shardStep W r env st i).amplitude_errors (unravel_index env.shape i) =
          writtenAmplitude env (unravel_index env.shape i) := by
        unfold shardStep
        rw [if_pos hproc, processWindow_amplitude]
        simp [upd]
      exact ⟨p1.trans w1, p2.trans w2, p3.trans w3⟩

/-- Folding over a filtered list is folding over the whole list with a guard
(used to relate the loop of `compute_error_stats` to the rank's shard). -/
theorem foldl_filter_eq {α β : Type} (p : α → Bool) (f : β → α → β) :
    ∀ (l : List α) (b : β),
      (l.filter p).foldl f b = l.foldl (fun st a => if p a then f st a else st) b := by
  intro l
  induction l with
  | nil => intro b; rfl
  | cons a t ih =>
    intro b
    by_cases h : p a
    · rw [List.filter_cons, if_pos h, List.foldl_cons, List.foldl_cons, if_pos h, ih]
    · rw [List.filter_cons, if_neg h, List.foldl_cons, ih, if_neg h]

/-- The batch context of `run_model` (main.py lines 638-707): per-batch-element
noisy signals and ground-truth labels `(count, duration, amplitude)` from
`VADL.get_batch`, and the two networks. -/
structure RunEnv where
  batch_size : ℕ
  noisy_signals : ℕ → List ℚ
  labels : ℕ → ℚ × ℚ × ℚ
  model_1 : List ℚ → ℚ
  model_2 : List ℚ → ℚ → ℚ × ℚ

/-- `external[i] = num_of_pulses[i].round()` in `run_model` (main.py lines
653-655): the counter applied to batch element `i`'s mean-centered noisy
signal, rounded. -/
def run_external (e : RunEnv) (i : ℕ) : ℤ :=
  roundHalfEven (e.model_1 (center (e.noisy_signals i)))

/-- Row `i` of `outputs` after `outputs[zero_pulse_indices,:] = 0.0` (main.py
lines 654-659): the predictor conditioned on `external`, zeroed on the batch
elements whose rounded count is zero. -/
def run_outputs (e : RunEnv) (i : ℕ) : ℚ × ℚ :=
  if run_external e i = 0 then (0, 0)
  else e.model_2 (center (e.noisy_signals i)) ((run_external e i : ℤ) : ℚ)

/-- The accumulators of the reporting loop of `run_model` (main.py lines
685-689).  The Python code keeps `measures` and `improper_measures` as floats
that are only ever incremented by `1.0`; they are modelled as naturals. -/
structure RunAcc where
  count_error : ℚ
  duration_error : ℚ
  amplitude_error : ℚ
  measures : ℕ
  improper_measures : ℕ

/-- The body of `for i in range(VADL.batch_size)` at main.py lines 690-700:
a zero-pulse ground truth is a proper measure when the rounded count is zero
(membership in `zero_pulse_indices`) and an improper measure otherwise; a
positive ground truth accumulates the three percentage errors. -/
def runStep (e : RunEnv) (acc : RunAcc) (i : ℕ) : RunAcc :=
  if (e.labels i).1 = 0 then
    if run_external e i = 0 then
      { acc with measures := acc.measures + 1 }
    else
      { acc with improper_measures := acc.improper_measures + 1 }
  else
    { count_error :=
        acc.count_error + |((e.labels i).1 - ((run_external e i : ℤ) : ℚ)) / (e.labels i).1| * 100
      duration_error :=
        acc.duration_error +
          |((e.labels i).2.1 - (run_outputs e i).1 * (1 / 10 ^ 3)) / (e.labels i).2.1| * 100
      amplitude_error :=
        acc.amplitude_error +
          |((e.labels i).2.2 - (run_outputs e i).2 * (1 / 10 ^ 10)) / (e.labels i).2.2| * 100
      measures := acc.measures + 1
      improper_measures := acc.improper_measures }

/-- The accumulated error statistics of `run_model` over the whole batch
(main.py lines 685-700); the final report divides the three error sums by
`measures`. -/
def run_model_stats (e : RunEnv) : RunAcc :=
  (List.range e.batch_size).foldl (runStep e) ⟨0, 0, 0, 0, 0⟩

theorem runStep_measures_mono (e : RunEnv) (acc : RunAcc) (i : ℕ) :
    acc.measures ≤ (runStep e acc i).measures := by
  unfold runStep
  split_ifs <;> simp

theorem foldl_runStep_measures_mono (e : RunEnv) :
    ∀ (l : List ℕ) (acc : RunAcc), acc.measures ≤ (l.foldl (runStep e) acc).measures := by
  intro l
  induction l with
  | nil => intro acc; exact le_refl _
  | cons a t ih =>
    intro acc
    rw [List.foldl_cons]
    exact le_trans (runStep_measures_mono e acc a) (ih _)

theorem foldl_runStep_measures_strict (e : RunEnv) (i : ℕ)
    (hp : (e.labels i).1 ≠ 0 ∨ ((e.labels i).1 = 0 ∧ run_external e i = 0)) :
    ∀ (l : List ℕ) (acc : RunAcc), i ∈ l →
      acc.measures < (l.foldl (runStep e) acc).measures := by
  intro l
  induction l with
  | nil => intro acc h; exact absurd h (List.not_mem_nil i)
  | cons a t ih =>
    intro acc hmem
    rw [List.foldl_cons]
    by_cases hit : i ∈ t
    · exact lt_of_le_of_lt (runStep_measures_mono e acc a) (ih _ hit)
    · have hia : i = a := by
        rcases List.mem_cons.mp hmem with h | h
        · exact h
        · exact absurd h hit
      subst hia
      have hstep : acc.measures < (runStep e acc i).measures := by
        unfold runStep
        rcases hp with h | ⟨h1, h2⟩
        · rw [if_neg h]
          exact Nat.lt_succ_self _
        · rw [if_pos h1, if_pos h2]
          exact Nat.lt_succ_self _
      exact lt_of_lt_of_le hstep (foldl_runStep_measures_mono e t _)

/-- A two-window dataset used to instantiate the theorems: window
`(0,0,0,0)` has one ground-truth pulse, window `(0,0,0,1)` has zero, and the
counter always answers `1`. -/
def sampleEnv : Env :=
  { shape := ⟨1, 1, 1, 2⟩
    times := fun _ => [0]
    noisy_signals := fun _ => [1]
    clean_signals := fun _ => [1]
    labels := fun idx => if idx.2.2.2 = 0 then (1, 1, 1) else (0, 1, 1)
    model_1 := fun _ => 1
    model_2 := fun _ _ => (1, 1) }

/-- A one-element batch whose ground truth has one pulse. -/
def sampleRunEnv : RunEnv :=
  { batch_size := 1
    noisy_signals := fun _ => [1]
    labels := fun _ => (1, 1, 1)
    model_1 := fun _ => 1
    model_2 := fun _ _ => (1, 1) }

/-- C1: for every validation window assigned to the local rank whose
ground-truth label has a positive pulse count (`labels[0] > 0`),
`compute_error_stats` records at grid cell `(Cnp, Duration, Dnp, window)` the
elementwise percentage errors against ground truth: the count error is
`abs((labels[0] - round(counter output)) / labels[0]) * 100`, and the duration
and amplitude errors are `abs((labels[k] - predictor output scaled by 10^-3
resp. 10^-10) / labels[k]) * 100` for `k = 1, 2`. -/
theorem local_error_stats_records_percentage_errors (W r i : ℕ) (env : Env)
    (hproc : i % W = r) (hi : i < env.shape.total)
    (hlab : 0 < (env.labels (unravel_index env.shape i)).1) :
    (local_error_stats W r env).count_errors (unravel_index env.shape i) =
      Cell.val
        (|((env.labels (unravel_index env.shape i)).1 -
            ((roundHalfEven (env.model_1 (center (env.noisy_signals (unravel_index env.shape i)))) :
                ℤ) : ℚ)) /
          (env.labels (unravel_index env.shape i)).1| * 100) ∧
    (local_error_stats W r env).duration_errors (unravel_index env.shape i) =
      Cell.val
        (|((env.labels (unravel_index env.shape i)).2.1 -
            (env.model_2 (center (env.noisy_signals (unravel_index env.shape i)))
              ((roundHalfEven (env.model_1 (center (env.noisy_signals (unravel_index env.shape i)))) :
                  ℤ) : ℚ)).1 *
              (1 / 10 ^ 3)) /
          (env.labels (unravel_index env.shape i)).2.1| * 100) ∧
    (local_error_stats W r env).amplitude_errors (unravel_index env.shape i) =
      Cell.val
        (|((env.labels (unravel_index env.shape i)).2.2 -
            (env.model_2 (center (env.noisy_signals (unravel_index env.shape i)))
              ((roundHalfEven (env.model_1 (center (env.noisy_signals (unravel_index env.shape i)))) :
                  ℤ) : ℚ)).2 *
              (1 / 10 ^ 10)) /
          (env.labels (unravel_index env.shape i)).2.2| * 100) := by
  obtain ⟨h1, h2, h3⟩ :=
    foldl_shardStep_written W r env i hproc (List.range env.shape.total) initStats
      (List.mem_range.mpr hi)
  unfold local_error_stats
  refine ⟨?_, ?_, ?_⟩
  · rw [h1]
    unfold writtenCount
    rw [if_pos hlab]
  · rw [h2]
    unfold writtenDuration
    rw [if_pos hlab]
  · rw [h3]
    unfold writtenAmplitude
    rw [if_pos hlab]

theorem local_error_stats_records_percentage_errors_witness :
    (local_error_stats 2 0 sampleEnv).count_errors (unravel_index sampleEnv.shape 0) =
      Cell.val
        (|((sampleEnv.labels (unravel_index sampleEnv.shape 0)).1 -
            ((roundHalfEven
                (sampleEnv.model_1 (center (sampleEnv.noisy_signals (unravel_index sampleEnv.shape 0)))) :
                ℤ) : ℚ)) /
          (sampleEnv.labels (unravel_index sampleEnv.shape 0)).1| * 100) ∧
    (local_error_stats 2 0 sampleEnv).duration_errors (unravel_index sampleEnv.shape 0) =
      Cell.val
        (|((sampleEnv.labels (unravel_index sampleEnv.shape 0)).2.1 -
            (sampleEnv.model_2 (center (sampleEnv.noisy_signals (unravel_index sampleEnv.shape 0)))
              ((roundHalfEven
                  (sampleEnv.model_1
                    (center (sampleEnv.noisy_signals (unravel_index sampleEnv.shape 0)))) :
                  ℤ) : ℚ)).1 *
              (1 / 10 ^ 3)) /
          (sampleEnv.labels (unravel_index sampleEnv.shape 0)).2.1| * 100) ∧
    (local_error_stats 2 0 sampleEnv).amplitude_errors (unravel_index sampleEnv.shape 0) =
      Cell.val
        (|((sampleEnv.labels (unravel_index sampleEnv.shape 0)).2.2 -
            (sampleEnv.model_2 (center (sampleEnv.noisy_signals (unravel_index sampleEnv.shape 0)))
              ((roundHalfEven
                  (sampleEnv.model_1
                    (center (sampleEnv.noisy_signals (unravel_index sampleEnv.shape 0)))) :
                  ℤ) : ℚ)).2 *
              (1 / 10 ^ 10)) /
          (sampleEnv.labels (unravel_index sampleEnv.shape 0)).2.2| * 100) :=
  local_error_stats_records_percentage_errors 2 0 0 sampleEnv (by decide)
    (by with_unfolding_all decide) (by with_unfolding_all decide)

/-- C2: for every validation window assigned to the local rank whose
ground-truth label has zero pulses, `compute_error_stats` counts the window as
an improper measure — incrementing `improper_measures` by one and writing NaN
into all three error tensors at that grid cell — if and only if the counter's
rounded prediction is one or more pulses. -/
theorem zero_pulse_window_improper_iff_round_ge_one (W r i : ℕ) (env : Env) (st : Stats)
    (hproc : i % W = r) (hi : i < env.shape.total)
    (h0 : (env.labels (unravel_index env.shape i)).1 = 0) :
    ((processWindow env st (unravel_index env.shape i)).improper_measures =
        st.improper_measures + 1 ↔
      1 ≤ roundHalfEven (env.model_1 (center (env.noisy_signals (unravel_index env.shape i))))) ∧
    (((local_error_stats W r env).count_errors (unravel_index env.shape i) = Cell.nan ∧
        (local_error_stats W r env).duration_errors (unravel_index env.shape i) = Cell.nan ∧
        (local_error_stats W r env).amplitude_errors (unravel_index env.shape i) = Cell.nan) ↔
      1 ≤ roundHalfEven (env.model_1 (center (env.noisy_signals (unravel_index env.shape i))))) := by
  have hnot : ¬ 0 < (env.labels (unravel_index env.shape i)).1 := by
    rw [h0]
    exact lt_irrefl 0
  have hcast :
      (0 : ℚ) <
          ((roundHalfEven (env.model_1 (center (env.noisy_signals (unravel_index env.shape i)))) :
              ℤ) : ℚ) ↔
        1 ≤ roundHalfEven (env.model_1 (center (env.noisy_signals (unravel_index env.shape i)))) := by
    rw [Int.cast_pos]
    omega
  obtain ⟨h1, h2, h3⟩ :=
    foldl_shardStep_written W r env i hproc (List.range env.shape.total) initStats
      (List.mem_range.mpr hi)
  constructor
  · rw [processWindow_improper]
    unfold improperDelta
    rw [if_neg hnot]
    by_cases hext :
        (0 : ℚ) <
          ((roundHalfEven (env.model_1 (center (env.noisy_signals (unravel_index env.shape i)))) :
              ℤ) : ℚ)
    · rw [if_pos hext]
      exact ⟨fun _ => hcast.mp hext, fun _ => rfl⟩
    · rw [if_neg hext]
      constructor
      · intro h
        exact absurd h (by omega)
      · intro h
        exact absurd (hcast.mpr h) hext
  · unfold local_error_stats
    rw [h1, h2, h3]
    unfold writtenCount writtenDuration writtenAmplitude
    rw [if_neg hnot, if_neg hnot, if_neg hnot]
    by_cases hext :
        (0 : ℚ) <
          ((roundHalfEven (env.model_1 (center (env.noisy_signals (unravel_index env.shape i)))) :
              ℤ) : ℚ)
    · rw [if_pos hext]
      exact ⟨fun _ => hcast.mp hext, fun _ => ⟨rfl, rfl, rfl⟩⟩
    · rw [if_neg hext]
      constructor
      · intro h
        exact absurd h.1 (by intro h'; exact Cell.noConfusion h')
      · intro h
        exact absurd (hcast.mpr h) hext

theorem zero_pulse_window_improper_iff_round_ge_one_witness :
    ((processWindow sampleEnv initStats (unravel_index sampleEnv.shape 1)).improper_measures =
        initStats.improper_measures + 1 ↔
      1 ≤ roundHalfEven
        (sampleEnv.model_1 (center (sampleEnv.noisy_signals (unravel_index sampleEnv.shape 1))))) ∧
    (((local_error_stats 2 1 sampleEnv).count_errors (unravel_index sampleEnv.shape 1) = Cell.nan ∧
        (local_error_stats 2 1 sampleEnv).duration_errors (unravel_index sampleEnv.shape 1) =
          Cell.nan ∧
        (local_error_stats 2 1 sampleEnv).amplitude_errors (unravel_index sampleEnv.shape 1) =
          Cell.nan) ↔
      1 ≤ roundHalfEven
        (sampleEnv.model_1 (center (sampleEnv.noisy_signals (unravel_index sampleEnv.shape 1))))) :=
  zero_pulse_window_improper_iff_round_ge_one 2 1 1 sampleEnv initStats (by decide)
    (by with_unfolding_all decide) (by with_unfolding_all decide)

/-- C3: when running distributed (`world_size > 1`), the three error tensors
returned by `compute_error_stats` are the elementwise sum of the per-rank
error tensors, available on every process (the reduction is modelled from the
spec as an all-reduce sum, `Utilities.reduce_tensor_sum_dest` not being under
`src/`); when not distributed, the locally accumulated tensors are returned
unchanged. -/
theorem compute_error_stats_distributed_reduction (W r : ℕ) (env : Env) :
    (1 < W → ∀ idx : Idx4,
      (compute_error_stats W r env).count_errors idx =
        (List.range W).foldl
          (fun acc q => Cell.add acc ((local_error_stats W q env).count_errors idx))
          (Cell.val 0) ∧
      (compute_error_stats W r env).duration_errors idx =
        (List.range W).foldl
          (fun acc q => Cell.add acc ((local_error_stats W q env).duration_errors idx))
          (Cell.val 0) ∧
      (compute_error_stats W r env).amplitude_errors idx =
        (List.range W).foldl
          (fun acc q => Cell.add acc ((local_error_stats W q env).amplitude_errors idx))
          (Cell.val 0)) ∧
    (¬ 1 < W → compute_error_stats W r env = local_error_stats W r env) := by
  constructor
  · intro hW idx
    unfold compute_error_stats
    rw [if_pos hW]
    exact ⟨rfl, rfl, rfl⟩
  · intro hW
    unfold compute_error_stats
    rw [if_neg hW]

theorem compute_error_stats_distributed_reduction_witness :
    (compute_error_stats 2 0 sampleEnv).count_errors (0, 0, 0, 0) =
      (List.range 2).foldl
        (fun acc q => Cell.add acc ((local_error_stats 2 q sampleEnv).count_errors (0, 0, 0, 0)))
        (Cell.val 0) :=
  ((compute_error_stats_distributed_reduction 2 0 sampleEnv).1 (by decide) (0, 0, 0, 0)).1

/-- C4: `compute_error_stats` enumerates every flat window index in
`[0, total_number_of_windows)` (last conjunct: the loop is exactly a fold of
the guarded body over `range(total)`), and `unravel_index` maps each flat
index to 4-D grid coordinates by row-major unraveling; this mapping is
injective, in range, and onto the grid, so every processed window writes a
distinct grid cell and over a full run every cell is written exactly once. -/
theorem unravel_index_row_major_bijection (s : Shape) :
    (∀ i j : ℕ, unravel_index s i = unravel_index s j → i = j) ∧
    (∀ i : ℕ, i < s.total → s.inRange (unravel_index s i)) ∧
    (∀ x : Idx4, s.inRange x → ∃ i : ℕ, i < s.total ∧ unravel_index s i = x) ∧
    (∀ (W r : ℕ) (env : Env),
      local_error_stats W r env =
        (List.range env.shape.total).foldl (shardStep W r env) initStats) := by
  refine ⟨?_, ?_, ?_, ?_⟩
  · exact fun i j h => unravel_index_injective s h
  · exact fun i hi => unravel_inRange s i hi
  · exact fun x hx => ⟨ravel_index s x, ravel_lt_total s x hx, unravel_ravel s x hx⟩
  · intro W r env
    rfl

theorem unravel_index_row_major_bijection_witness :
    Shape.inRange ⟨2, 3, 4, 5⟩ (1, 2, 3, 4) ∧
    ∃ i : ℕ, i < Shape.total ⟨2, 3, 4, 5⟩ ∧ unravel_index ⟨2, 3, 4, 5⟩ i = (1, 2, 3, 4) :=
  ⟨by decide, (unravel_index_row_major_bijection ⟨2, 3, 4, 5⟩).2.2.1 (1, 2, 3, 4) (by decide)⟩

/-- C5: `compute_error_stats` shards the validation windows across processes
by flat index: rank `r` of `W` processes exactly the windows with
`i % W == r` (first conjunct), the shards are pairwise disjoint (second),
their union covers every window (third), and the local accumulation is
exactly the fold of the unguarded window body over the rank's shard
(fourth). -/
theorem sharding_by_flat_index_mod_world_size (W : ℕ) (hW : 0 < W) :
    (∀ total r i : ℕ, i ∈ shard W r total ↔ i < total ∧ i % W = r) ∧
    (∀ total r1 r2 i : ℕ, r1 ≠ r2 → ¬(i ∈ shard W r1 total ∧ i ∈ shard W r2 total)) ∧
    (∀ total i : ℕ, i < total → ∃ r : ℕ, r < W ∧ i ∈ shard W r total) ∧
    (∀ (r : ℕ) (env : Env),
      local_error_stats W r env =
        (shard W r env.shape.total).foldl
          (fun st i => processWindow env st (unravel_index env.shape i)) initStats) := by
  have hmem : ∀ total r i : ℕ, i ∈ shard W r total ↔ i < total ∧ i % W = r := by
    intro total r i
    unfold shard
    rw [List.mem_filter, List.mem_range]
    simp
  refine ⟨hmem, ?_, ?_, ?_⟩
  · intro total r1 r2 i hne h
    obtain ⟨ha, hb⟩ := h
    have h1 := (hmem total r1 i).mp ha
    have h2 := (hmem total r2 i).mp hb
    exact hne (h1.2.symm.trans h2.2)
  · intro total i hi
    exact ⟨i % W, Nat.mod_lt _ hW, (hmem total (i % W) i).mpr ⟨hi, rfl⟩⟩
  · intro r env
    unfold local_error_stats shard
    rw [foldl_filter_eq]
    congr 1
    funext st i
    unfold shardStep
    by_cases h : i % W = r
    · simp [h]
    · simp [h]

theorem sharding_by_flat_index_mod_world_size_witness : 5 ∈ shard 2 1 8 :=
  ((sharding_by_flat_index_mod_world_size 2 (by decide)).1 8 1 5).mpr (by decide)

/-- C6: the two model evaluations are chained.  In `compute_error_stats` the
recorded duration and amplitude errors at the window's grid cell (first two
conjuncts) come from `model_2` applied to the same mean-centered noisy signal
together with `model_1`'s output rounded to an integer count.  In `run_model`
(last conjunct), row `j` of the predictor output used by the reporting loop is
`model_2` of the same mean-centered signal and the rounded counter output
(zeroed afterwards exactly on the rows whose rounded count is zero). -/
theorem predictor_chained_on_counter_output (W r i : ℕ) (env : Env)
    (hproc : i % W = r) (hi : i < env.shape.total)
    (hlab : 0 < (env.labels (unravel_index env.shape i)).1)
    (e : RunEnv) (j : ℕ) :
    (local_error_stats W r env).duration_errors (unravel_index env.shape i) =
      Cell.val
        (|((env.labels (unravel_index env.shape i)).2.1 -
            (env.model_2 (center (env.noisy_signals (unravel_index env.shape i)))
              ((roundHalfEven (env.model_1 (center (env.noisy_signals (unravel_index env.shape i)))) :
                  ℤ) : ℚ)).1 *
              (1 / 10 ^ 3)) /
          (env.labels (unravel_index env.shape i)).2.1| * 100) ∧
    (local_error_stats W r env).amplitude_errors (unravel_index env.shape i) =
      Cell.val
        (|((env.labels (unravel_index env.shape i)).2.2 -
            (env.model_2 (center (env.noisy_signals (unravel_index env.shape i)))
              ((roundHalfEven (env.model_1 (center (env.noisy_signals (unravel_index env.shape i)))) :
                  ℤ) : ℚ)).2 *
              (1 / 10 ^ 10)) /
          (env.labels (unravel_index env.shape i)).2.2| * 100) ∧
    run_outputs e j =
      (if roundHalfEven (e.model_1 (center (e.noisy_signals j))) = 0 then ((0 : ℚ), (0 : ℚ))
       else e.model_2 (center (e.noisy_signals j))
        ((roundHalfEven (e.model_1 (center (e.noisy_signals j))) : ℤ) : ℚ)) := by
  obtain ⟨h1, h2, h3⟩ :=
    foldl_shardStep_written W r env i hproc (List.range env.shape.total) initStats
      (List.mem_range.mpr hi)
  refine ⟨?_, ?_, rfl⟩
  · unfold local_error_stats
    rw [h2]
    unfold writtenDuration
    rw [if_pos hlab]
  · unfold local_error_stats
    rw [h3]
    unfold writtenAmplitude
    rw [if_pos hlab]

theorem predictor_chained_on_counter_output_witness :
    (local_error_stats 2 0 sampleEnv).duration_errors (unravel_index sampleEnv.shape 0) =
      Cell.val
        (|((sampleEnv.labels (unravel_index sampleEnv.shape 0)).2.1 -
            (sampleEnv.model_2 (center (sampleEnv.noisy_signals (unravel_index sampleEnv.shape 0)))
              ((roundHalfEven
                  (sampleEnv.model_1
                    (center (sampleEnv.noisy_signals (unravel_index sampleEnv.shape 0)))) :
                  ℤ) : ℚ)).1 *
              (1 / 10 ^ 3)) /
          (sampleEnv.labels (unravel_index sampleEnv.shape 0)).2.1| * 100) ∧
    (local_error_stats 2 0 sampleEnv).amplitude_errors (unravel_index sampleEnv.shape 0) =
      Cell.val
        (|((sampleEnv.labels (unravel_index sampleEnv.shape 0)).2.2 -
            (sampleEnv.model_2 (center (sampleEnv.noisy_signals (unravel_index sampleEnv.shape 0)))
              ((roundHalfEven
                  (sampleEnv.model_1
                    (center (sampleEnv.noisy_signals (unravel_index sampleEnv.shape 0)))) :
                  ℤ) : ℚ)).2 *
              (1 / 10 ^ 10)) /
          (sampleEnv.labels (unravel_index sampleEnv.shape 0)).2.2| * 100) ∧
    run_outputs sampleRunEnv 0 =
      (if roundHalfEven (sampleRunEnv.model_1 (center (sampleRunEnv.noisy_signals 0))) = 0 then
        ((0 : ℚ), (0 : ℚ))
       else sampleRunEnv.model_2 (center (sampleRunEnv.noisy_signals 0))
        ((roundHalfEven (sampleRunEnv.model_1 (center (sampleRunEnv.noisy_signals 0))) : ℤ) : ℚ)) :=
  predictor_chained_on_counter_output 2 0 0 sampleEnv (by decide)
    (by with_unfolding_all decide) (by with_unfolding_all decide) sampleRunEnv 0

/-- A `run_model` batch on which the improper-measure criterion of `run_model`
diverges from "the counter predicts one or more pulses": ground truth has zero
pulses and the counter output rounds to `-1`. -/
def negRoundRunEnv : RunEnv :=
  { batch_size := 1
    noisy_signals := fun _ => [1]
    labels := fun _ => (0, 1, 1)
    model_1 := fun _ => -1
    model_2 := fun _ _ => (1, 1) }

/-- The same situation presented to `compute_error_stats`: one window, zero
ground-truth pulses, counter output rounding to `-1`. -/
def negRoundEnv : Env :=
  { shape := ⟨1, 1, 1, 1⟩
    times := fun _ => [1]
    noisy_signals := fun _ => [1]
    clean_signals := fun _ => [1]
    labels := fun _ => (0, 1, 1)
    model_1 := fun _ => -1
    model_2 := fun _ _ => (1, 1) }

/-- C7 (failing input): on a batch element with zero ground-truth pulses whose
counter output rounds to `-1` — not "one or more pulses" — `run_model` counts
the element as an improper measure (its guard is `round == 0`, main.py line
654 and 692), while `compute_error_stats` on the same data counts none (its
guard is `external > 0`, main.py line 413).  This contradicts the printed
description at main.py lines 706-707 and the criterion of
`compute_error_stats` that the claim references. -/
theorem run_model_improper_measure_negative_round :
    run_external negRoundRunEnv 0 = -1 ∧
    ¬ 1 ≤ run_external negRoundRunEnv 0 ∧
    (run_model_stats negRoundRunEnv).improper_measures = 1 ∧
    (run_model_stats negRoundRunEnv).measures = 0 ∧
    (local_error_stats 1 0 negRoundEnv).improper_measures = 0 := by
  with_unfolding_all decide

/-- C8: `processWindow` is a straight-line per-window step with no feedback:
handling the window at grid cell `idx` leaves every other cell `c ≠ idx` of
all three error tensors unchanged, and at most increments the
`improper_measures` counter by one. -/
theorem processWindow_frame (env : Env) (st : Stats) (idx c : Idx4) (hne : c ≠ idx) :
    (processWindow env st idx).count_errors c = st.count_errors c ∧
    (processWindow env st idx).duration_errors c = st.duration_errors c ∧
    (processWindow env st idx).amplitude_errors c = st.amplitude_errors c ∧
    ((processWindow env st idx).improper_measures = st.improper_measures ∨
      (processWindow env st idx).improper_measures = st.improper_measures + 1) := by
  refine ⟨?_, ?_, ?_, ?_⟩
  · rw [processWindow_count]
    simp only [upd]
    rw [if_neg hne]
  · rw [processWindow_duration]
    simp only [upd]
    rw [if_neg hne]
  · rw [processWindow_amplitude]
    simp only [upd]
    rw [if_neg hne]
  · rw [processWindow_improper]
    unfold improperDelta
    split_ifs
    · exact Or.inl rfl
    · exact Or.inr rfl
    · exact Or.inl rfl

theorem processWindow_frame_witness :
    (processWindow sampleEnv initStats (0, 0, 0, 0)).count_errors (0, 0, 0, 1) =
      initStats.count_errors (0, 0, 0, 1) ∧
    (processWindow sampleEnv initStats (0, 0, 0, 0)).duration_errors (0, 0, 0, 1) =
      initStats.duration_errors (0, 0, 0, 1) ∧
    (processWindow sampleEnv initStats (0, 0, 0, 0)).amplitude_errors (0, 0, 0, 1) =
      initStats.amplitude_errors (0, 0, 0, 1) ∧
    ((processWindow sampleEnv initStats (0, 0, 0, 0)).improper_measures =
        initStats.improper_measures ∨
      (processWindow sampleEnv initStats (0, 0, 0, 0)).improper_measures =
        initStats.improper_measures + 1) :=
  processWindow_frame sampleEnv initStats (0, 0, 0, 0) (0, 0, 0, 1) (by decide)

/-- C9: in distributed mode the `improper_measures` value returned by
`compute_error_stats` is not reduced across processes: it equals the local
rank's count (first conjunct), so whenever another rank's shard contains an
improper measure, the returned value strictly understates the dataset-wide
total (second conjunct). -/
theorem improper_measures_not_reduced (W r : ℕ) (env : Env) (hW : 1 < W) (hr : r < W) :
    (compute_error_stats W r env).improper_measures =
      (local_error_stats W r env).improper_measures ∧
    (∀ q : ℕ, q < W → q ≠ r → 0 < (local_error_stats W q env).improper_measures →
      (compute_error_stats W r env).improper_measures <
        ∑ p ∈ Finset.range W, (local_error_stats W p env).improper_measures) := by
  have hloc : (compute_error_stats W r env).improper_measures =
      (local_error_stats W r env).improper_measures := by
    unfold compute_error_stats
    rw [if_pos hW]
  refine ⟨hloc, ?_⟩
  intro q hq hqr hpos
  rw [hloc]
  have hsplit :
      (local_error_stats W r env).improper_measures +
          ∑ p ∈ (Finset.range W).erase r, (local_error_stats W p env).improper_measures =
        ∑ p ∈ Finset.range W, (local_error_stats W p env).improper_measures :=
    Finset.add_sum_erase (Finset.range W)
      (fun p => (local_error_stats W p env).improper_measures) (Finset.mem_range.mpr hr)
  have hmemq : q ∈ (Finset.range W).erase r :=
    Finset.mem_erase.mpr ⟨hqr, Finset.mem_range.mpr hq⟩
  have hle : (local_error_stats W q env).improper_measures ≤
      ∑ p ∈ (Finset.range W).erase r, (local_error_stats W p env).improper_measures :=
    Finset.single_le_sum (f := fun p => (local_error_stats W p env).improper_measures)
      (fun _ _ => Nat.zero_le _) hmemq
  omega

theorem improper_measures_not_reduced_witness :
    (compute_error_stats 2 0 sampleEnv).improper_measures <
      ∑ p ∈ Finset.range 2, (local_error_stats 2 p sampleEnv).improper_measures :=
  (improper_measures_not_reduced 2 0 sampleEnv (by decide) (by decide)).2 1 (by decide)
    (by decide) (by with_unfolding_all decide)

/-- C10: `run_model` divides its accumulated errors by `measures` with no
guard; if at least one batch element is a proper measure — its ground truth
has pulses, or it has zero pulses and the counter rounds to zero — then
`measures` is positive, so the division-by-zero case is unreachable. -/
theorem run_model_measures_positive (e : RunEnv) (i : ℕ) (hi : i < e.batch_size)
    (hp : (e.labels i).1 ≠ 0 ∨ ((e.labels i).1 = 0 ∧ run_external e i = 0)) :
    0 < (run_model_stats e).measures ∧ ((run_model_stats e).measures : ℚ) ≠ 0 := by
  have h :=
    foldl_runStep_measures_strict e i hp (List.range e.batch_size) ⟨0, 0, 0, 0, 0⟩
      (List.mem_range.mpr hi)
  have hpos : 0 < (run_model_stats e).measures := h
  exact ⟨hpos, Nat.cast_ne_zero.mpr (by omega)⟩

theorem run_model_measures_positive_witness :
    0 < (run_model_stats sampleRunEnv).measures ∧
    ((run_model_stats sampleRunEnv).measures : ℚ) ≠ 0 :=
  run_model_measures_positive sampleRunEnv 0 (by decide)
    (Or.inl (by with_unfolding_all decide))

end BackboneValidation
